import Mathlib

/-!
Verification of the orchestration core of the lsd directory-listing tool.

The development shallowly embeds the two source files of the repository:

* src/flags.rs : the configuration structure `Flags`, its enumerations, and
  `Flags::from_matches`, which turns parsed command-line matches into a
  `Flags` value (returning a clap error for an invalid `--depth`).
* src/core.rs : `Core::new` (terminal-capability driven theme resolution and
  the piped-output layout override), `Core::fetch` (per-root fetch with
  per-path failure isolation), `Core::sort` (recursive per-level sort built
  on the unstable standard-library sort) and `Core::display` (renderer
  dispatch on the layout).

Parts of the repository that the two files call but that are not part of the
given sources (the `Meta` record of src/meta.rs, the comparator of
src/sort.rs, the total-size aggregation, and the exit logic of the binary
entry point) are modelled from the specification; each such definition
carries a doc comment starting with `Modelled from the spec:`.

Machine integers: `usize` is modelled as `Nat` together with the constant
`USIZE_MAX`; the only arithmetic the embedded code performs on a `usize` is
parsing and comparison, so no wrap-around arises.

The per-level sort in `Core::sort` is `slice::sort_unstable_by`, a standard
library routine whose documented contract is: the result is a permutation of
the input, ordered by the comparator, and equal-comparing elements may be
reordered.  The embedding therefore describes one run of `Core::sort` as a
relation (`CoreSortForest`) admitting every outcome permitted by that
contract; a property holds of the code when it holds for every admitted
outcome.
-/

/-! ## src/flags.rs : enumerations and the Flags structure -/

/-- Embeds enum Display of src/flags.rs. -/
inductive Display : Type where
  | displayAll
  | displayAlmostAll
  | displayDirectoryItself
  | displayOnlyVisible
deriving DecidableEq, Repr

/-- Embeds enum SortFlag of src/flags.rs. -/
inductive SortFlag : Type where
  | name
  | time
  | size
deriving DecidableEq, Repr

/-- Embeds enum SortOrder of src/flags.rs. -/
inductive SortOrder : Type where
  | defaultOrder
  | reverse
deriving DecidableEq, Repr

/-- Embeds enum DirOrderFlag of src/flags.rs. -/
inductive DirOrderFlag : Type where
  | none
  | first
  | last
deriving DecidableEq, Repr

/-- Embeds enum SizeFlag of src/flags.rs. -/
inductive SizeFlag : Type where
  | defaultSize
  | short
  | bytes
deriving DecidableEq, Repr

/-- Embeds enum DateFlag of src/flags.rs. -/
inductive DateFlag : Type where
  | date
  | relative
deriving DecidableEq, Repr

/-- Embeds enum WhenFlag of src/flags.rs (values of --color and --icon). -/
inductive WhenFlag : Type where
  | always
  | auto
  | never
  | long
deriving DecidableEq, Repr

/-- Embeds enum IconTheme of src/flags.rs (the requested glyph set). -/
inductive IconTheme : Type where
  | unicode
  | fancy
deriving DecidableEq, Repr

/-- Embeds enum Layout of src/flags.rs. -/
inductive Layout : Type where
  | grid
  | tree (long : Bool)
  | oneLine (long : Bool)
deriving DecidableEq, Repr

/-- Embeds enum Block of src/flags.rs. -/
inductive Block : Type where
  | permission
  | user
  | group
  | size
  | date
  | name
deriving DecidableEq, Repr

/-- Embeds usize::max_value() for the 64-bit targets the tool is built for. -/
def USIZE_MAX : Nat := 2 ^ 64 - 1

/-- Embeds struct Flags of src/flags.rs. -/
structure Flags : Type where
  display : Display
  layout : Layout
  long_mode : Bool
  display_indicators : Bool
  recursive : Bool
  sort_by : SortFlag
  sort_order : SortOrder
  directory_order : DirOrderFlag
  size : SizeFlag
  date : DateFlag
  color : WhenFlag
  icon : WhenFlag
  icon_theme : IconTheme
  recursion_depth : Nat
  blocks : List Block
  no_symlink : Bool
  total_size : Bool
deriving DecidableEq, Repr

/-- Embeds impl Default for Flags of src/flags.rs. -/
def defaultFlags : Flags where
  display := Display.displayOnlyVisible
  layout := Layout.grid
  long_mode := false
  display_indicators := false
  recursive := false
  recursion_depth := USIZE_MAX
  sort_by := SortFlag.name
  sort_order := SortOrder.defaultOrder
  directory_order := DirOrderFlag.none
  size := SizeFlag.defaultSize
  date := DateFlag.date
  color := WhenFlag.auto
  icon := WhenFlag.auto
  icon_theme := IconTheme.fancy
  blocks := [Block.permission, Block.user, Block.group, Block.size,
    Block.date, Block.name]
  no_symlink := false
  total_size := false

/-! ## src/flags.rs : Flags::from_matches -/

/-- Embeds the clap ArgMatches values that Flags::from_matches consumes.
Each is_present call becomes a Bool field; each values_of call becomes a
list of the occurrences of the option (clap supplies a default value, so
these lists are nonempty in every real invocation); value_of("depth")
becomes an Option String. -/
structure ArgMatches : Type where
  classic : Bool
  all : Bool
  almost_all : Bool
  directory_only : Bool
  timesort : Bool
  sizesort : Bool
  reverse : Bool
  tree : Bool
  long : Bool
  oneline : Bool
  recursive : Bool
  indicators : Bool
  no_symlink : Bool
  total_size : Bool
  color_inputs : List String
  icon_inputs : List String
  icon_theme_inputs : List String
  size_inputs : List String
  date_inputs : List String
  dir_order_inputs : List String
  blocks_inputs : List String
  depth : Option String
deriving DecidableEq, Repr

/-- Embeds clap ErrorKind, restricted to the two kinds src/flags.rs uses. -/
inductive ErrKind : Type where
  | valueValidation
  | missingRequiredArgument
deriving DecidableEq, Repr

/-- Embeds the clap Error values built by Error::with_description. -/
structure ClapError : Type where
  kind : ErrKind
  msg : String
deriving DecidableEq, Repr

/-- Embeds impl From for WhenFlag; the wildcard arm panics in the source,
which is modelled as none. -/
def WhenFlag.ofStr : String → Option WhenFlag
  | "always" => some WhenFlag.always
  | "auto" => some WhenFlag.auto
  | "never" => some WhenFlag.never
  | "long" => some WhenFlag.long
  | _ => none

/-- Embeds impl From for SizeFlag; the panic arm is modelled as none. -/
def SizeFlag.ofStr : String → Option SizeFlag
  | "default" => some SizeFlag.defaultSize
  | "short" => some SizeFlag.short
  | "bytes" => some SizeFlag.bytes
  | _ => none

/-- Embeds impl From for DateFlag; the panic arm is modelled as none. -/
def DateFlag.ofStr : String → Option DateFlag
  | "date" => some DateFlag.date
  | "relative" => some DateFlag.relative
  | _ => none

/-- Embeds impl From for DirOrderFlag; the panic arm is modelled as none. -/
def DirOrderFlag.ofStr : String → Option DirOrderFlag
  | "none" => some DirOrderFlag.none
  | "first" => some DirOrderFlag.first
  | "last" => some DirOrderFlag.last
  | _ => none

/-- Embeds impl From for IconTheme; the panic arm is modelled as none. -/
def IconTheme.ofStr : String → Option IconTheme
  | "fancy" => some IconTheme.fancy
  | "unicode" => some IconTheme.unicode
  | _ => none

/-- Embeds impl From for Block; the panic arm is modelled as none. -/
def Block.ofStr : String → Option Block
  | "permission" => some Block.permission
  | "user" => some Block.user
  | "group" => some Block.group
  | "size" => some Block.size
  | "date" => some Block.date
  | "name" => some Block.name
  | _ => none

/-- Embeds str::parse::<usize>: an optional leading plus sign followed by at
least one decimal digit, rejecting values above usize::MAX. -/
def parseUsize (s : String) : Option Nat :=
  let ds := match s.data with
    | '+' :: rest => rest
    | other => other
  if ds = [] then none
  else if ds.all Char.isDigit then
    let v := ds.foldl (fun acc c => acc * 10 + (c.toNat - 48)) 0
    if v ≤ USIZE_MAX then some v else none
  else none

/-- Message of the depth validation error of src/flags.rs line 81. -/
def depthInvalidMsg : String :=
  "The argument --depth requires a valid positive number"

/-- Message of the depth requirement error of src/flags.rs line 89. -/
def depthRequiresMsg : String :=
  "The argument --depth requires --tree or --recursive"

/-- Embeds the classic-mode conditionals of Flags::from_matches lines 110
to 130: classic mode forces a value, otherwise the option string is
converted (a panic on an invalid string is modelled as none). -/
def classicPick {α : Type} (classic : Bool) (forced : α)
    (parsed : Option α) : Option α :=
  if classic then some forced else parsed

/-- Embeds the construction of the Flags record at the end of
Flags::from_matches, lines 98 to 133, given the already-computed display,
sort, layout and depth values; none models a library panic from an invalid
option string (unreachable when clap has validated the possible values). -/
def buildFlags (m : ArgMatches) (colorLast iconLast iconThemeLast
    sizeLast dateLast dirOrderLast : String) (display : Display)
    (sort_by : SortFlag) (sort_order : SortOrder) (layout : Layout)
    (recursion_depth : Nat) : Option Flags := do
  let sizeV ← SizeFlag.ofStr sizeLast
  let blocksV ← m.blocks_inputs.mapM Block.ofStr
  let dateV ← classicPick m.classic DateFlag.date (DateFlag.ofStr dateLast)
  let colorV ← classicPick m.classic WhenFlag.never
    (WhenFlag.ofStr colorLast)
  let iconV ← classicPick m.classic WhenFlag.never (WhenFlag.ofStr iconLast)
  let iconThemeV ← IconTheme.ofStr iconThemeLast
  let dirOrderV ← classicPick m.classic DirOrderFlag.none
    (DirOrderFlag.ofStr dirOrderLast)
  pure
    { display := display
      layout := layout
      long_mode := m.long || m.tree
      display_indicators := m.indicators
      recursive := m.recursive
      recursion_depth := recursion_depth
      sort_by := sort_by
      sort_order := sort_order
      directory_order := dirOrderV
      size := sizeV
      date := dateV
      color := colorV
      icon := iconV
      icon_theme := iconThemeV
      blocks := blocksV
      no_symlink := m.no_symlink
      total_size := m.total_size }

/-- Embeds the tail of Flags::from_matches after the values_of unwraps have
succeeded, with the last value of each repeated option already extracted.
The result is an Except for the two early clap-error returns of the depth
validation. -/
def fromMatchesCore (m : ArgMatches) (colorLast iconLast iconThemeLast
    sizeLast dateLast dirOrderLast : String) :
    Except ClapError (Option Flags) :=
  let display :=
    if m.all then Display.displayAll
    else if m.almost_all then Display.displayAlmostAll
    else if m.directory_only then Display.displayDirectoryItself
    else Display.displayOnlyVisible
  let sort_by :=
    if m.timesort then SortFlag.time
    else if m.sizesort then SortFlag.size
    else SortFlag.name
  let sort_order :=
    if m.reverse then SortOrder.reverse else SortOrder.defaultOrder
  let layout :=
    if m.tree then Layout.tree m.long
    else if m.long then Layout.oneLine true
    else if m.oneline then Layout.oneLine false
    else Layout.grid
  let recursive := m.recursive
  let build : Nat → Option Flags := fun recursion_depth =>
    buildFlags m colorLast iconLast iconThemeLast sizeLast dateLast
      dirOrderLast display sort_by sort_order layout recursion_depth
  match m.depth with
  | some str =>
      if recursive || layout = Layout.tree m.long then
        match parseUsize str with
        | some val => Except.ok (build val)
        | none =>
            Except.error (ClapError.mk ErrKind.valueValidation depthInvalidMsg)
      else
        Except.error
          (ClapError.mk ErrKind.missingRequiredArgument depthRequiresMsg)
  | none => Except.ok (build USIZE_MAX)

/-- Embeds Flags::from_matches of src/flags.rs.  The six values_of unwraps
of lines 27 to 33 run first; an empty option list there makes the source
panic, modelled as ok none. -/
def fromMatches (m : ArgMatches) : Except ClapError (Option Flags) :=
  match m.color_inputs.getLast?, m.icon_inputs.getLast?,
      m.icon_theme_inputs.getLast?, m.size_inputs.getLast?,
      m.date_inputs.getLast?, m.dir_order_inputs.getLast? with
  | some colorLast, some iconLast, some iconThemeLast, some sizeLast,
      some dateLast, some dirOrderLast =>
      fromMatchesCore m colorLast iconLast iconThemeLast sizeLast dateLast
        dirOrderLast
  | _, _, _, _, _, _ => Except.ok none

/-- The ArgMatches of a bare invocation with the default option values that
the CLI definition supplies. -/
def defaultMatches : ArgMatches where
  classic := false
  all := false
  almost_all := false
  directory_only := false
  timesort := false
  sizesort := false
  reverse := false
  tree := false
  long := false
  oneline := false
  recursive := false
  indicators := false
  no_symlink := false
  total_size := false
  color_inputs := ["auto"]
  icon_inputs := ["auto"]
  icon_theme_inputs := ["fancy"]
  size_inputs := ["default"]
  date_inputs := ["date"]
  dir_order_inputs := ["none"]
  blocks_inputs := ["permission", "user", "group", "size", "date", "name"]
  depth := Option.none

/-- Sanity check: the default matches produce exactly Flags::default(). -/
theorem fromMatches_defaults : fromMatches defaultMatches
    = Except.ok (some defaultFlags) := rfl

/-! ## The entry record

The Meta record lives in src/meta.rs, which is not among the given sources;
it is modelled from the specification data model: a display path, a metadata
bundle (of which the sort comparator of the spec uses the modification time
and the size), an entry kind (of which only directory or not matters to the
core), and an optional ordered sequence of children. -/

/-- Modelled from the spec: the Entry record (struct Meta of src/meta.rs).
Fields: display path, modification time, size, whether the entry is a
directory, and the optional nested forest. -/
inductive Meta : Type where
  | mk (name : String) (date : Nat) (size : Nat) (isDirectory : Bool)
      (content : Option (List Meta))

/-- Path of the entry. -/
def Meta.name : Meta → String
  | .mk n _ _ _ _ => n

/-- Modification time of the entry. -/
def Meta.date : Meta → Nat
  | .mk _ d _ _ _ => d

/-- Size of the entry. -/
def Meta.size : Meta → Nat
  | .mk _ _ s _ _ => s

/-- Whether the entry is a directory. -/
def Meta.isDirectory : Meta → Bool
  | .mk _ _ _ b _ => b

/-- Children of the entry, when recursion attached any. -/
def Meta.content : Meta → Option (List Meta)
  | .mk _ _ _ _ c => c

/-- Embeds the assignment meta.content = content of src/core.rs line 105. -/
def Meta.setContent : Meta → Option (List Meta) → Meta
  | .mk n d s b _, c => .mk n d s b c

/-- The scalar fields of an entry: everything except the nested forest. -/
def Meta.scalar (m : Meta) : String × Nat × Nat × Bool :=
  (m.name, m.date, m.size, m.isDirectory)

mutual

/-- Boolean equality on entries, used to build decidable equality. -/
def Meta.beq : Meta → Meta → Bool
  | .mk n d s b c, .mk n' d' s' b' c' =>
      n == n' && d == d' && s == s' && b == b' && Meta.beqOpt c c'

/-- Boolean equality on optional forests. -/
def Meta.beqOpt : Option (List Meta) → Option (List Meta) → Bool
  | none, none => true
  | some l, some l' => Meta.beqList l l'
  | _, _ => false

/-- Boolean equality on forests. -/
def Meta.beqList : List Meta → List Meta → Bool
  | [], [] => true
  | x :: xs, y :: ys => Meta.beq x y && Meta.beqList xs ys
  | _, _ => false

end

mutual

theorem Meta.beq_iff : ∀ a b : Meta, Meta.beq a b = true ↔ a = b
  | .mk n d s b c, .mk n' d' s' b' c' => by
      rw [Meta.beq, Meta.mk.injEq]
      rw [Bool.and_eq_true, Bool.and_eq_true, Bool.and_eq_true,
        Bool.and_eq_true]
      rw [beq_iff_eq, beq_iff_eq, beq_iff_eq, beq_iff_eq,
        Meta.beqOpt_iff c c']
      tauto

theorem Meta.beqOpt_iff :
    ∀ c c' : Option (List Meta), Meta.beqOpt c c' = true ↔ c = c'
  | none, none => by simp [Meta.beqOpt]
  | none, some _ => by simp [Meta.beqOpt]
  | some _, none => by simp [Meta.beqOpt]
  | some l, some l' => by
      rw [Meta.beqOpt, Meta.beqList_iff l l']
      simp

theorem Meta.beqList_iff :
    ∀ l l' : List Meta, Meta.beqList l l' = true ↔ l = l'
  | [], [] => by simp [Meta.beqList]
  | [], _ :: _ => by simp [Meta.beqList]
  | _ :: _, [] => by simp [Meta.beqList]
  | x :: xs, y :: ys => by
      rw [Meta.beqList, Bool.and_eq_true, Meta.beq_iff x y,
        Meta.beqList_iff xs ys, List.cons.injEq]

end

instance : DecidableEq Meta := fun a b => decidable_of_iff _ (Meta.beq_iff a b)

/-- Sum of the size fields of a forest. -/
def sumSizes (l : List Meta) : Nat :=
  (l.map Meta.size).foldl (· + ·) 0

mutual

/-- Modelled from the spec: Meta::calculate_total_size of src/meta.rs, a
bottom-up pass that replaces the size of each entry with content by its own
size plus the already-aggregated sizes of its children; entries without
content are left unchanged. -/
def calculateTotalSize : Meta → Meta
  | .mk n d s b none => .mk n d s b none
  | .mk n d s b (some l) =>
      let l2 := calcSizesList l
      .mk n d (s + sumSizes l2) b (some l2)

/-- Total-size aggregation applied to every entry of a forest. -/
def calcSizesList : List Meta → List Meta
  | [] => []
  | x :: xs => calculateTotalSize x :: calcSizesList xs

end

/-! ## The comparator of src/sort.rs -/

/-- Modelled from the spec: the directory-grouping pre-key of the comparator
(directories entirely before or entirely after non-directories, or no
grouping). -/
def dirOrderKey (dof : DirOrderFlag) (adir bdir : Bool) : Ordering :=
  match dof with
  | DirOrderFlag.none => Ordering.eq
  | DirOrderFlag.first =>
      match adir, bdir with
      | true, false => Ordering.lt
      | false, true => Ordering.gt
      | _, _ => Ordering.eq
  | DirOrderFlag.last =>
      match adir, bdir with
      | true, false => Ordering.gt
      | false, true => Ordering.lt
      | _, _ => Ordering.eq

/-- Modelled from the spec: the primary key of the comparator, one of name,
modification time or size, ascending by default and flipped by the reverse
direction. -/
def primaryKey (sf : SortFlag) (so : SortOrder) (an bn : String)
    (ad bd : Nat) (as' bs' : Nat) : Ordering :=
  let k := match sf with
    | SortFlag.name => compare an bn
    | SortFlag.time => compare ad bd
    | SortFlag.size => compare as' bs'
  match so with
  | SortOrder.defaultOrder => k
  | SortOrder.reverse => k.swap

/-- Modelled from the spec: sort::by_meta of src/sort.rs, the total preorder
over entries derived from the configuration; the directory-grouping mode is
a higher-priority key ahead of the primary key. -/
def byMeta (flags : Flags) (a b : Meta) : Ordering :=
  match dirOrderKey flags.directory_order a.isDirectory b.isDirectory with
  | Ordering.eq =>
      primaryKey flags.sort_by flags.sort_order a.name b.name a.date b.date
        a.size b.size
  | g => g

/-! ## src/core.rs : Core::new, theme resolution and the layout override -/

/-- Embeds enum Theme of src/color.rs, restricted to the variants Core::new
constructs. -/
inductive ColorTheme : Type where
  | noColor
  | defaultTheme
deriving DecidableEq, Repr

/-- Embeds enum Theme of src/icon.rs. -/
inductive IconThemeRes : Type where
  | noIcon
  | fancy
  | unicode
deriving DecidableEq, Repr

/-- Embeds the color_theme match of src/core.rs lines 42 to 45, a function
of the conjunction tty_available and console_color_ok and of the requested
color policy. -/
def colorTheme (tty_available console_color_ok : Bool) (c : WhenFlag) :
    ColorTheme :=
  match tty_available && console_color_ok, c with
  | _, WhenFlag.never => ColorTheme.noColor
  | false, WhenFlag.auto => ColorTheme.noColor
  | _, _ => ColorTheme.defaultTheme

/-- Embeds the icon_theme match of src/core.rs lines 47 to 51. -/
def iconTheme (tty_available : Bool) (icon : WhenFlag) (long_mode : Bool)
    (it : IconTheme) : IconThemeRes :=
  match tty_available, icon, long_mode, it with
  | _, WhenFlag.never, _, _ => IconThemeRes.noIcon
  | false, WhenFlag.auto, _, _ => IconThemeRes.noIcon
  | _, WhenFlag.long, false, _ => IconThemeRes.noIcon
  | _, _, _, IconTheme.fancy => IconThemeRes.fancy
  | _, _, _, IconTheme.unicode => IconThemeRes.unicode

/-- Embeds the inner_flags computation of src/core.rs lines 40 and 53 to 59:
a clone of the requested flags whose layout is forced to OneLine with
long = false when stdout is not a tty. -/
def innerFlagsOf (flags : Flags) (tty_available : Bool) : Flags :=
  if tty_available then flags
  else { flags with layout := Layout.oneLine false }

/-- Embeds struct Core of src/core.rs. -/
structure Core : Type where
  flags : Flags
  colors : ColorTheme
  icons : IconThemeRes
deriving DecidableEq, Repr

/-- Embeds Core::new of src/core.rs lines 25 to 67.  The capability outcomes
tty_available and console_color_ok are the two platform probes, passed in as
parameters.  Note that the source computes inner_flags (with the overridden
layout) but stores the ORIGINAL flags in the Core it returns: the field that
consumed inner_flags is commented out at line 63. -/
def Core.new (flags : Flags) (tty_available console_color_ok : Bool) :
    Core :=
  let color_theme := colorTheme tty_available console_color_ok flags.color
  let icon_theme :=
    iconTheme tty_available flags.icon flags.long_mode flags.icon_theme
  let _inner_flags := innerFlagsOf flags tty_available
  { flags := flags, colors := color_theme, icons := icon_theme }

/-- The three rendering strategies of src/display.rs. -/
inductive RendererKind : Type where
  | oneLine
  | tree
  | grid
deriving DecidableEq, Repr

/-- Embeds the dispatch match of Core::display, src/core.rs lines 136 to
142: the strategy is selected from the layout stored in self.flags. -/
def rendererOf : Layout → RendererKind
  | Layout.oneLine _ => RendererKind.oneLine
  | Layout.tree _ => RendererKind.tree
  | Layout.grid => RendererKind.grid

/-! ## src/core.rs : Core::fetch

The filesystem calls of the fetch pass (fs::canonicalize, Meta::from_path,
Meta::recurse_into) are external effects; the embedding passes their
outcomes in as an environment, so that fetch becomes a pure function of the
environment and the ordered list of root paths. -/

/-- Outcomes of the filesystem calls made by Core::fetch for one run:
fs::canonicalize (whose success value the source discards), Meta::from_path,
and Meta::recurse_into with the effective depth and the display policy. -/
structure FsEnv : Type where
  canonicalize : String → Except String Unit
  from_path : String → Except String Meta
  recurse_into : Meta → Nat → Display → Except String (Option (List Meta))

/-- Embeds the depth match of src/core.rs lines 78 to 82: the requested
depth for a tree layout or an explicitly recursive run, and exactly 1
otherwise. -/
def fetchDepth (flags : Flags) : Nat :=
  match flags.layout with
  | Layout.tree _ => flags.recursion_depth
  | _ => if flags.recursive then flags.recursion_depth else 1

/-- The diagnostic line printed to the error stream for one failed root,
src/core.rs lines 86, 93 and 109. -/
def diagMsg (path err : String) : String :=
  "cannot access " ++ path ++ ": " ++ err

/-- Embeds the body of the per-root loop of src/core.rs lines 84 to 115:
canonicalize the path, build the Meta, then either push it directly (when
the display policy shows the directory itself) or attach the result of
recursion; the first failure yields the diagnostic for this root. -/
def fetchStep (env : FsEnv) (flags : Flags) (depth : Nat) (path : String) :
    Except String Meta :=
  match env.canonicalize path with
  | Except.error err => Except.error (diagMsg path err)
  | Except.ok _ =>
      match env.from_path path with
      | Except.error err => Except.error (diagMsg path err)
      | Except.ok m =>
          match flags.display with
          | Display.displayDirectoryItself => Except.ok m
          | _ =>
              match env.recurse_into m depth flags.display with
              | Except.ok content => Except.ok (m.setContent content)
              | Except.error err => Except.error (diagMsg path err)

/-- The per-root loop over all roots, in input order: a failing root
contributes its single diagnostic and is skipped, a succeeding root
contributes its entry. -/
def fetchList (env : FsEnv) (flags : Flags) (depth : Nat) :
    List String → List Meta × List String
  | [] => ([], [])
  | p :: ps =>
      let rest := fetchList env flags depth ps
      match fetchStep env flags depth p with
      | Except.ok m => (m :: rest.1, rest.2)
      | Except.error d => (rest.1, d :: rest.2)

/-- Embeds Core::fetch of src/core.rs lines 76 to 123: the per-root loop at
the effective depth, followed by the total-size pass when requested.  The
second component collects the diagnostics emitted to the error stream, in
emission order. -/
def Core.fetch (self : Core) (env : FsEnv) (paths : List String) :
    List Meta × List String :=
  let r := fetchList env self.flags (fetchDepth self.flags) paths
  (if self.flags.total_size then calcSizesList r.1 else r.1, r.2)

/-- The entry a root path contributes when it succeeds (before the
total-size pass). -/
def rootOk (env : FsEnv) (flags : Flags) (p : String) : Option Meta :=
  (fetchStep env flags (fetchDepth flags) p).toOption

/-- The diagnostic a root path contributes when it fails. -/
def rootDiag (env : FsEnv) (flags : Flags) (p : String) : Option String :=
  match fetchStep env flags (fetchDepth flags) p with
  | Except.ok _ => none
  | Except.error d => some d

/-- Modelled from the spec: the exit logic of the binary entry point (not
among the given sources), which reports a non-zero exit status exactly when
at least one per-path diagnostic was emitted during the run, and zero
otherwise. -/
def processExitCode (diags : List String) : Nat :=
  if diags.isEmpty then 0 else 1

/-- Closed form of the fetch pass: the forest is exactly the entries of the
succeeding roots in input order (with the total-size pass applied when
requested), and the diagnostics are exactly those of the failing roots in
input order. -/
theorem fetch_eq (c : Core) (env : FsEnv) (paths : List String) :
    Core.fetch c env paths =
      (if c.flags.total_size then
          calcSizesList (paths.filterMap (rootOk env c.flags))
        else paths.filterMap (rootOk env c.flags),
        paths.filterMap (rootDiag env c.flags)) := by
  have h : fetchList env c.flags (fetchDepth c.flags) paths =
      (paths.filterMap (rootOk env c.flags),
        paths.filterMap (rootDiag env c.flags)) := by
    induction paths with
    | nil => rfl
    | cons p ps ih =>
        simp only [fetchList, ih, List.filterMap_cons, rootOk, rootDiag]
        cases fetchStep env c.flags (fetchDepth c.flags) p <;>
          simp [Except.toOption]
  simp only [Core.fetch, h]

/-! ## src/core.rs : Core::sort

Core::sort sorts the forest in place with slice::sort_unstable_by under the
comparator sort::by_meta, then recurses into every content sequence (lines
125 to 133).  slice::sort_unstable_by is standard-library code whose
documented contract fixes the result only up to the order of equal-comparing
elements: the output is a permutation of the input that is nondecreasing
under the comparator, and it may reorder equal elements.  One run of
Core::sort is therefore embedded as the relation below, whose outcomes are
exactly those the contract admits: a level relates to any nondecreasing
permutation of itself, with every content sequence related recursively. -/

mutual

/-- All outcomes of Core::sort on one forest: mid is the outcome the
unstable sort is permitted to produce for this level (a nondecreasing
permutation of the level), and the entries of mid then have their content
sequences sorted recursively. -/
inductive CoreSortForest (cmp : Meta → Meta → Ordering) :
    List Meta → List Meta → Prop where
  | step (l mid out : List Meta) :
      mid.Perm l →
      mid.Pairwise (fun a b => cmp a b ≠ Ordering.gt) →
      CoreSortList cmp mid out →
      CoreSortForest cmp l out

/-- Pointwise recursion of Core::sort into the entries of a level. -/
inductive CoreSortList (cmp : Meta → Meta → Ordering) :
    List Meta → List Meta → Prop where
  | nil : CoreSortList cmp [] []
  | cons (m m' : Meta) (l l' : List Meta) :
      CoreSortMeta cmp m m' → CoreSortList cmp l l' →
      CoreSortList cmp (m :: l) (m' :: l')

/-- Recursion of Core::sort into one entry: an entry without content is
untouched, an entry with content keeps its scalar fields and has its
content sorted. -/
inductive CoreSortMeta (cmp : Meta → Meta → Ordering) : Meta → Meta → Prop
    where
  | noContent (n : String) (d s : Nat) (b : Bool) :
      CoreSortMeta cmp (.mk n d s b none) (.mk n d s b none)
  | withContent (n : String) (d s : Nat) (b : Bool) (c c' : List Meta) :
      CoreSortForest cmp c c' →
      CoreSortMeta cmp (.mk n d s b (some c)) (.mk n d s b (some c'))

end

/-- The comparator that declares every pair of entries equal.  Under it the
sortedness side condition of CoreSortForest is vacuous, so CoreSortForest of
trivialCmp relates two forests exactly when one arises from the other by
permuting entries within their own levels. -/
def trivialCmp : Meta → Meta → Ordering := fun _ _ => Ordering.eq

/-- Level-preserving reordering of a forest: each level of the second forest
is a permutation of the corresponding level of the first, no entry moves
between levels, and entries without content keep content absent. -/
def ForestEquiv : List Meta → List Meta → Prop :=
  CoreSortForest trivialCmp

/-! Sortedness of a whole forest: every level nondecreasing. -/

mutual

/-- The top level is nondecreasing and every entry is recursively sorted. -/
inductive ForestSorted (cmp : Meta → Meta → Ordering) : List Meta → Prop
    where
  | mk (l : List Meta) :
      l.Pairwise (fun a b => cmp a b ≠ Ordering.gt) →
      SortedElems cmp l →
      ForestSorted cmp l

/-- Every entry of the list has recursively sorted content. -/
inductive SortedElems (cmp : Meta → Meta → Ordering) : List Meta → Prop
    where
  | nil : SortedElems cmp []
  | cons (m : Meta) (l : List Meta) :
      MetaSorted cmp m → SortedElems cmp l → SortedElems cmp (m :: l)

/-- The content of the entry, if any, is a sorted forest. -/
inductive MetaSorted (cmp : Meta → Meta → Ordering) : Meta → Prop where
  | noContent (n : String) (d s : Nat) (b : Bool) :
      MetaSorted cmp (.mk n d s b none)
  | withContent (n : String) (d s : Nat) (b : Bool) (c : List Meta) :
      ForestSorted cmp c → MetaSorted cmp (.mk n d s b (some c))

end

/-- A comparator that reads only the scalar fields of its arguments, never
the nested content.  The comparator of the configuration is of this kind. -/
def ScalarOnly (cmp : Meta → Meta → Ordering) : Prop :=
  ∀ a a' b b' : Meta, a.scalar = a'.scalar → b.scalar = b'.scalar →
    cmp a b = cmp a' b'

theorem byMeta_scalarOnly (flags : Flags) : ScalarOnly (byMeta flags) := by
  intro a a' b b' ha hb
  simp only [Meta.scalar, Prod.mk.injEq] at ha hb
  obtain ⟨ha1, ha2, ha3, ha4⟩ := ha
  obtain ⟨hb1, hb2, hb3, hb4⟩ := hb
  simp only [byMeta, ha1, ha2, ha3, ha4, hb1, hb2, hb3, hb4]

theorem pairwise_trivial (l : List Meta) :
    l.Pairwise (fun a b => trivialCmp a b ≠ Ordering.gt) := by
  induction l with
  | nil => exact List.Pairwise.nil
  | cons x xs ih =>
      exact List.Pairwise.cons (fun b _ => by simp [trivialCmp]) ih

theorem coreSortMeta_scalar {cmp : Meta → Meta → Ordering} {m m' : Meta}
    (h : CoreSortMeta cmp m m') : m.scalar = m'.scalar := by
  cases h <;> rfl

theorem coreSortList_scalars {cmp : Meta → Meta → Ordering} :
    ∀ {l l' : List Meta}, CoreSortList cmp l l' →
      l.map Meta.scalar = l'.map Meta.scalar
  | _, _, .nil => rfl
  | _, _, .cons m m' l l' hm hl => by
      simp only [List.map_cons, coreSortMeta_scalar hm,
        coreSortList_scalars hl]

theorem coreSortList_mem {cmp : Meta → Meta → Ordering} :
    ∀ {l l' : List Meta}, CoreSortList cmp l l' → ∀ b' : Meta,
      b' ∈ l' → ∃ b ∈ l, CoreSortMeta cmp b b'
  | _, _, .nil => by
      intro b' hb'
      exact absurd hb' (List.not_mem_nil b')
  | _, _, .cons m m' l l' hm hl => by
      intro b' hb'
      rcases List.mem_cons.mp hb' with h | h
      · exact ⟨m, List.mem_cons_self m l, h ▸ hm⟩
      · obtain ⟨b, hb, hrel⟩ := coreSortList_mem hl b' h
        exact ⟨b, List.mem_cons_of_mem m hb, hrel⟩

theorem coreSortList_pairwise {cmp : Meta → Meta → Ordering}
    (hs : ScalarOnly cmp) :
    ∀ {l l' : List Meta}, CoreSortList cmp l l' →
      l.Pairwise (fun a b => cmp a b ≠ Ordering.gt) →
      l'.Pairwise (fun a b => cmp a b ≠ Ordering.gt)
  | _, _, .nil, _ => List.Pairwise.nil
  | _, _, .cons m m' l l' hm hl, hpw => by
      rcases List.pairwise_cons.mp hpw with ⟨hhead, htail⟩
      refine List.pairwise_cons.mpr ⟨?_, coreSortList_pairwise hs hl htail⟩
      intro b' hb'
      obtain ⟨b, hb, hrel⟩ := coreSortList_mem hl b' hb'
      have : cmp m' b' = cmp m b :=
        hs m' m b' b (coreSortMeta_scalar hm).symm
          (coreSortMeta_scalar hrel).symm
      rw [this]
      exact hhead b hb

mutual

theorem coreSortForest_equiv {cmp : Meta → Meta → Ordering} :
    ∀ {l out : List Meta}, CoreSortForest cmp l out → ForestEquiv l out
  | _, _, .step l mid out hp _ hrel =>
      .step l mid out hp (pairwise_trivial mid) (coreSortList_equiv hrel)

theorem coreSortList_equiv {cmp : Meta → Meta → Ordering} :
    ∀ {l out : List Meta}, CoreSortList cmp l out →
      CoreSortList trivialCmp l out
  | _, _, .nil => .nil
  | _, _, .cons m m' l l' hm hl =>
      .cons m m' l l' (coreSortMeta_equiv hm) (coreSortList_equiv hl)

theorem coreSortMeta_equiv {cmp : Meta → Meta → Ordering} :
    ∀ {m m' : Meta}, CoreSortMeta cmp m m' → CoreSortMeta trivialCmp m m'
  | _, _, .noContent n d s b => .noContent n d s b
  | _, _, .withContent n d s b c c' h =>
      .withContent n d s b c c' (coreSortForest_equiv h)

end

mutual

theorem coreSortForest_sorted {cmp : Meta → Meta → Ordering}
    (hs : ScalarOnly cmp) :
    ∀ {l out : List Meta}, CoreSortForest cmp l out → ForestSorted cmp out
  | _, _, .step _ mid out _ hpw hrel =>
      .mk out (coreSortList_pairwise hs hrel hpw)
        (coreSortList_sortedElems hs hrel)

theorem coreSortList_sortedElems {cmp : Meta → Meta → Ordering}
    (hs : ScalarOnly cmp) :
    ∀ {l out : List Meta}, CoreSortList cmp l out → SortedElems cmp out
  | _, _, .nil => .nil
  | _, _, .cons _ m' _ l' hm hl =>
      .cons m' l' (coreSortMeta_sorted hs hm) (coreSortList_sortedElems hs hl)

theorem coreSortMeta_sorted {cmp : Meta → Meta → Ordering}
    (hs : ScalarOnly cmp) :
    ∀ {m m' : Meta}, CoreSortMeta cmp m m' → MetaSorted cmp m'
  | _, _, .noContent n d s b => .noContent n d s b
  | _, _, .withContent n d s b _ c' h =>
      .withContent n d s b c' (coreSortForest_sorted hs h)

end

theorem coreSortForest_scalars_perm {cmp : Meta → Meta → Ordering}
    {l out : List Meta} (h : CoreSortForest cmp l out) :
    (out.map Meta.scalar).Perm (l.map Meta.scalar) := by
  rcases h with ⟨l, mid, out, hp, _, hrel⟩
  rw [← coreSortList_scalars hrel]
  exact hp.map Meta.scalar

/-! ## Determinism of the sort on tie-free forests -/

/-- A comparator under which mutually nondecreasing entries compare equal:
the configured comparator is of this kind because its keys are linear
orders. -/
def CmpAntisym (cmp : Meta → Meta → Ordering) : Prop :=
  ∀ a b : Meta, cmp a b ≠ Ordering.gt → cmp b a ≠ Ordering.gt →
    cmp a b = Ordering.eq

theorem compare_antisym_eq {α : Type} [LinearOrder α] {a b : α}
    (h1 : compare a b ≠ Ordering.gt) (h2 : compare b a ≠ Ordering.gt) :
    compare a b = Ordering.eq := by
  rcases h : compare a b with _ | _ | _
  · exfalso
    apply h2
    rw [compare_gt_iff_gt]
    exact compare_lt_iff_lt.mp h
  · rfl
  · exact absurd h h1

theorem compare_antisym_eq' {α : Type} [LinearOrder α] {a b : α}
    (h1 : compare a b ≠ Ordering.lt) (h2 : compare b a ≠ Ordering.lt) :
    compare a b = Ordering.eq := by
  rcases h : compare a b with _ | _ | _
  · exact absurd h h1
  · rfl
  · exfalso
    apply h2
    rw [compare_lt_iff_lt]
    exact compare_gt_iff_gt.mp h

theorem dirOrderKey_swap (dof : DirOrderFlag) (x y : Bool) :
    dirOrderKey dof y x = (dirOrderKey dof x y).swap := by
  cases dof <;> cases x <;> cases y <;> rfl

theorem swap_ne_gt {o : Ordering} (h : o.swap ≠ Ordering.gt) :
    o ≠ Ordering.lt := by
  intro hlt
  rw [hlt] at h
  exact h rfl

theorem primaryKey_antisym {sf : SortFlag} {so : SortOrder}
    {an bn : String} {ad bd as' bs' : Nat}
    (h1 : primaryKey sf so an bn ad bd as' bs' ≠ Ordering.gt)
    (h2 : primaryKey sf so bn an bd ad bs' as' ≠ Ordering.gt) :
    primaryKey sf so an bn ad bd as' bs' = Ordering.eq := by
  cases so with
  | defaultOrder =>
      cases sf <;> simp only [primaryKey] at h1 h2 ⊢ <;>
        exact compare_antisym_eq h1 h2
  | reverse =>
      cases sf <;> simp only [primaryKey] at h1 h2 ⊢ <;>
        · rw [compare_antisym_eq' (swap_ne_gt h1) (swap_ne_gt h2)]
          rfl

/-- The comparator derived from any configuration is antisymmetric in the
sense of CmpAntisym. -/
theorem byMeta_antisym (flags : Flags) : CmpAntisym (byMeta flags) := by
  intro a b h1 h2
  unfold byMeta at h1 h2 ⊢
  rw [dirOrderKey_swap] at h2
  generalize dirOrderKey flags.directory_order a.isDirectory b.isDirectory
    = k at h1 h2 ⊢
  cases k
  · exact (h2 rfl).elim
  · exact primaryKey_antisym h1 h2
  · exact (h1 rfl).elim

/-- A nondecreasing permutation of a nondecreasing list is the list itself,
provided entries of the list that compare equal are equal. -/
theorem sorted_perm_unique {cmp : Meta → Meta → Ordering}
    (hanti : CmpAntisym cmp) :
    ∀ {l1 l2 : List Meta}, l1.Perm l2 →
      l1.Pairwise (fun a b => cmp a b ≠ Ordering.gt) →
      l2.Pairwise (fun a b => cmp a b ≠ Ordering.gt) →
      (∀ x ∈ l1, ∀ y ∈ l1, cmp x y = Ordering.eq → x = y) →
      l1 = l2 := by
  intro l1
  induction l1 with
  | nil =>
      intro l2 hp _ _ _
      exact (hp.symm.eq_nil).symm
  | cons a t ih =>
      intro l2 hp hs1 hs2 htie
      cases l2 with
      | nil => exact hp.eq_nil
      | cons b t2 =>
          have hab : a = b := by
            by_contra hne
            have hbmem : b ∈ a :: t :=
              hp.mem_iff.mpr (List.mem_cons_self b t2)
            have hbt : b ∈ t := by
              rcases List.mem_cons.mp hbmem with h | h
              · exact absurd h.symm hne
              · exact h
            have hamem : a ∈ b :: t2 :=
              hp.mem_iff.mp (List.mem_cons_self a t)
            have hat : a ∈ t2 := by
              rcases List.mem_cons.mp hamem with h | h
              · exact absurd h hne
              · exact h
            have hcab : cmp a b ≠ Ordering.gt :=
              (List.pairwise_cons.mp hs1).1 b hbt
            have hcba : cmp b a ≠ Ordering.gt :=
              (List.pairwise_cons.mp hs2).1 a hat
            exact hne (htie a (List.mem_cons_self a t) b hbmem
              (hanti a b hcab hcba))
          subst hab
          have ht : t.Perm t2 := hp.cons_inv
          have := ih ht (List.pairwise_cons.mp hs1).2
            (List.pairwise_cons.mp hs2).2
            (fun x hx y hy => htie x (List.mem_cons_of_mem a hx) y
              (List.mem_cons_of_mem a hy))
          rw [this]

/-! Tie-free forests: no two distinct entries of a level compare equal. -/

mutual

/-- A forest in which entries of the same level that compare equal are the
same entry, recursively at every depth.  On such forests the admitted sort
outcomes coincide. -/
inductive ForestTieFree (cmp : Meta → Meta → Ordering) : List Meta → Prop
    where
  | mk (l : List Meta) :
      (∀ x ∈ l, ∀ y ∈ l, cmp x y = Ordering.eq → x = y) →
      TieFreeElems cmp l → ForestTieFree cmp l

/-- Every entry of the list is recursively tie-free. -/
inductive TieFreeElems (cmp : Meta → Meta → Ordering) : List Meta → Prop
    where
  | nil : TieFreeElems cmp []
  | cons (m : Meta) (l : List Meta) :
      MetaTieFree cmp m → TieFreeElems cmp l → TieFreeElems cmp (m :: l)

/-- The content of the entry, if any, is a tie-free forest. -/
inductive MetaTieFree (cmp : Meta → Meta → Ordering) : Meta → Prop where
  | noContent (n : String) (d s : Nat) (b : Bool) :
      MetaTieFree cmp (.mk n d s b none)
  | withContent (n : String) (d s : Nat) (b : Bool) (c : List Meta) :
      ForestTieFree cmp c → MetaTieFree cmp (.mk n d s b (some c))

end

theorem tieFreeElems_mem {cmp : Meta → Meta → Ordering} :
    ∀ {l : List Meta}, TieFreeElems cmp l → ∀ m : Meta, m ∈ l →
      MetaTieFree cmp m
  | _, .nil => by
      intro m' hm'
      exact absurd hm' (List.not_mem_nil m')
  | _, .cons m l hm hl => by
      intro m' hm'
      rcases List.mem_cons.mp hm' with h | h
      · exact h ▸ hm
      · exact tieFreeElems_mem hl m' h

theorem tieFreeElems_of_forall {cmp : Meta → Meta → Ordering} :
    ∀ l : List Meta, (∀ m ∈ l, MetaTieFree cmp m) → TieFreeElems cmp l
  | [] => fun _ => .nil
  | m :: l => fun h =>
      .cons m l (h m (List.mem_cons_self m l))
        (tieFreeElems_of_forall l fun x hx =>
          h x (List.mem_cons_of_mem m hx))

mutual

theorem forestSorted_selfSort {cmp : Meta → Meta → Ordering} :
    ∀ {l : List Meta}, ForestSorted cmp l → CoreSortForest cmp l l
  | _, .mk l hpw helems =>
      .step l l l (List.Perm.refl l) hpw (sortedElems_selfSort helems)

theorem sortedElems_selfSort {cmp : Meta → Meta → Ordering} :
    ∀ {l : List Meta}, SortedElems cmp l → CoreSortList cmp l l
  | _, .nil => .nil
  | _, .cons m l hm hl =>
      .cons m m l l (metaSorted_selfSort hm) (sortedElems_selfSort hl)

theorem metaSorted_selfSort {cmp : Meta → Meta → Ordering} :
    ∀ {m : Meta}, MetaSorted cmp m → CoreSortMeta cmp m m
  | _, .noContent n d s b => .noContent n d s b
  | _, .withContent n d s b c hc =>
      .withContent n d s b c c (forestSorted_selfSort hc)

end

mutual

theorem coreSortForest_unique {cmp : Meta → Meta → Ordering}
    (hs : ScalarOnly cmp) (hanti : CmpAntisym cmp) :
    ∀ {l o o' : List Meta}, ForestTieFree cmp l →
      CoreSortForest cmp l o → CoreSortForest cmp l o' → o = o'
  | _, _, _, .mk l htie helems, .step _ mid o hp hpw hrel,
      .step _ mid' o' hp' hpw' hrel' => by
      have hmm : mid = mid' :=
        sorted_perm_unique hanti (hp.trans hp'.symm) hpw hpw'
          (fun x hx y hy hcxy =>
            htie x (hp.mem_iff.mp hx) y (hp.mem_iff.mp hy) hcxy)
      subst hmm
      exact coreSortList_unique hs hanti
        (tieFreeElems_of_forall mid fun m hm =>
          tieFreeElems_mem helems m (hp.mem_iff.mp hm)) hrel hrel'

theorem coreSortList_unique {cmp : Meta → Meta → Ordering}
    (hs : ScalarOnly cmp) (hanti : CmpAntisym cmp) :
    ∀ {l o o' : List Meta}, TieFreeElems cmp l →
      CoreSortList cmp l o → CoreSortList cmp l o' → o = o'
  | _, _, _, _, .nil, .nil => rfl
  | _, _, _, .cons _ _ hm htl, .cons _ m1 _ o1 hx hrest,
      .cons _ m2 _ o2 hy hrest' => by
      rw [coreSortMeta_unique hs hanti hm hx hy,
        coreSortList_unique hs hanti htl hrest hrest']

theorem coreSortMeta_unique {cmp : Meta → Meta → Ordering}
    (hs : ScalarOnly cmp) (hanti : CmpAntisym cmp) :
    ∀ {m x y : Meta}, MetaTieFree cmp m →
      CoreSortMeta cmp m x → CoreSortMeta cmp m y → x = y
  | _, _, _, .noContent _ _ _ _, .noContent _ _ _ _,
      .noContent _ _ _ _ => rfl
  | _, _, _, .withContent n d s b c htf, .withContent _ _ _ _ _ c1 h1,
      .withContent _ _ _ _ _ c2 h2 => by
      rw [coreSortForest_unique hs hanti htf h1 h2]

end

mutual

theorem coreSortForest_tieFree {cmp : Meta → Meta → Ordering}
    (hs : ScalarOnly cmp) (hanti : CmpAntisym cmp) :
    ∀ {l o : List Meta}, ForestTieFree cmp l → CoreSortForest cmp l o →
      ForestTieFree cmp o
  | _, _, .mk l htie helems, .step _ mid o hp hpw hrel => by
      have hmemmid : ∀ m ∈ mid, MetaTieFree cmp m :=
        fun m hm => tieFreeElems_mem helems m (hp.mem_iff.mp hm)
      refine .mk o ?_ ?_
      · intro x hx y hy hcxy
        obtain ⟨x0, hx0, hrx⟩ := coreSortList_mem hrel x hx
        obtain ⟨y0, hy0, hry⟩ := coreSortList_mem hrel y hy
        have hxy0 : cmp x0 y0 = Ordering.eq := by
          rw [hs x0 x y0 y (coreSortMeta_scalar hrx)
            (coreSortMeta_scalar hry)]
          exact hcxy
        have heq0 : x0 = y0 :=
          htie x0 (hp.mem_iff.mp hx0) y0 (hp.mem_iff.mp hy0) hxy0
        subst heq0
        exact coreSortMeta_unique hs hanti (hmemmid x0 hx0) hrx hry
      · exact coreSortList_tieFree hs hanti
          (tieFreeElems_of_forall mid hmemmid) hrel

theorem coreSortList_tieFree {cmp : Meta → Meta → Ordering}
    (hs : ScalarOnly cmp) (hanti : CmpAntisym cmp) :
    ∀ {l o : List Meta}, TieFreeElems cmp l → CoreSortList cmp l o →
      TieFreeElems cmp o
  | _, _, .nil, .nil => .nil
  | _, _, .cons _ _ hm htl, .cons _ m' _ o hx hrest =>
      .cons m' o (coreSortMeta_tieFree hs hanti hm hx)
        (coreSortList_tieFree hs hanti htl hrest)

theorem coreSortMeta_tieFree {cmp : Meta → Meta → Ordering}
    (hs : ScalarOnly cmp) (hanti : CmpAntisym cmp) :
    ∀ {m x : Meta}, MetaTieFree cmp m → CoreSortMeta cmp m x →
      MetaTieFree cmp x
  | _, _, .noContent n d s b, .noContent _ _ _ _ => .noContent n d s b
  | _, _, .withContent n d s b c htf, .withContent _ _ _ _ _ c' h =>
      .withContent n d s b c' (coreSortForest_tieFree hs hanti htf h)

end

/-! ## Concrete material for witnesses and counterexamples -/

/-- Whether a layout is the tree layout. -/
def Layout.isTree : Layout → Bool
  | Layout.tree _ => true
  | _ => false

/-- Configuration sorting by size: distinct entries of equal size compare
equal under the comparator, so ties are possible. -/
def sizeFlags : Flags :=
  { defaultFlags with sort_by := SortFlag.size }

/-- An entry of size 5 named a. -/
def mA : Meta := Meta.mk "a" 0 5 false none

/-- An entry of size 5 named b. -/
def mB : Meta := Meta.mk "b" 0 5 false none

/-- An entry of size 7 named c. -/
def mC : Meta := Meta.mk "c" 0 7 false none

/-- An entry of size 7 named d. -/
def mD : Meta := Meta.mk "d" 0 7 false none

/-- An entry used by witnesses. -/
def mE : Meta := Meta.mk "e" 1 2 false none

/-- The run of Core::sort on a one-entry forest without content leaves it
unchanged, whatever the comparator. -/
theorem sortSingleton (cmp : Meta → Meta → Ordering) (n : String)
    (d s : Nat) (b : Bool) :
    CoreSortForest cmp [Meta.mk n d s b none] [Meta.mk n d s b none] :=
  .step _ [Meta.mk n d s b none] _ (List.Perm.refl _)
    (List.pairwise_cons.mpr
      ⟨fun x hx => absurd hx (List.not_mem_nil x), List.Pairwise.nil⟩)
    (.cons _ _ _ _ (.noContent n d s b) .nil)

/-- A two-entry level of equal-comparing entries admits the swapped output. -/
theorem sortSwapPair (flags : Flags) (x y : Meta)
    (hx : x.content = none) (hy : y.content = none)
    (hxy : byMeta flags y x ≠ Ordering.gt) :
    CoreSortForest (byMeta flags) [x, y] [y, x] := by
  have hx' : x = Meta.mk x.name x.date x.size x.isDirectory none := by
    cases x with
    | mk n d s b c => cases hx; rfl
  have hy' : y = Meta.mk y.name y.date y.size y.isDirectory none := by
    cases y with
    | mk n d s b c => cases hy; rfl
  refine .step _ [y, x] _ (List.Perm.swap x y [])
    (List.pairwise_cons.mpr ⟨?_, List.pairwise_cons.mpr
      ⟨fun z hz => absurd hz (List.not_mem_nil z), List.Pairwise.nil⟩⟩) ?_
  · intro z hz
    rcases List.mem_cons.mp hz with h | h
    · exact h ▸ hxy
    · exact absurd h (List.not_mem_nil z)
  · rw [hx', hy']
    exact .cons _ _ _ _ (.noContent _ _ _ _)
      (.cons _ _ _ _ (.noContent _ _ _ _) .nil)

/-! ## Claim theorems -/

/-- C1: the claim states that whenever stdout is not a tty, the layout the
pipeline actually uses (for fetch depth and renderer dispatch) is OneLine
with long = false, regardless of the requested layout.  The source computes
exactly that override into inner_flags, but then stores the original flags
in the Core (the field consuming inner_flags is commented out, src/core.rs
lines 20, 40, 53 to 63), so a piped run with the default grid layout still
dispatches to the grid renderer: the override is dead.  This theorem
evaluates the embedded code at that failing input. -/
theorem pipedLayoutOverrideIsDead :
    (Core.new defaultFlags false true).flags.layout = Layout.grid ∧
    rendererOf (Core.new defaultFlags false true).flags.layout =
      RendererKind.grid ∧
    fetchDepth (Core.new defaultFlags false true).flags = 1 ∧
    (innerFlagsOf defaultFlags false).layout = Layout.oneLine false :=
  ⟨rfl, rfl, rfl, rfl⟩

/-- C4: the resolved color theme: plain for policy Never regardless of
interactivity, styled for policy Auto exactly when the output is an
interactive terminal with ANSI support, and styled for policy Always
regardless of interactivity (src/core.rs lines 42 to 45). -/
theorem colorTheme_policy (tty_available console_color_ok : Bool) :
    colorTheme tty_available console_color_ok WhenFlag.never =
      ColorTheme.noColor ∧
    (colorTheme tty_available console_color_ok WhenFlag.auto =
      if tty_available && console_color_ok then ColorTheme.defaultTheme
      else ColorTheme.noColor) ∧
    colorTheme tty_available console_color_ok WhenFlag.always =
      ColorTheme.defaultTheme := by
  cases tty_available <;> cases console_color_ok <;> exact ⟨rfl, rfl, rfl⟩

/-- C5: the resolved icon theme is NoIcon exactly when the policy is Never,
or the policy is Auto with non-interactive output, or the policy is Long
without long-format display; in every other case the requested glyph set
decides between Fancy and Unicode (src/core.rs lines 47 to 51). -/
theorem iconTheme_policy (tty_available long_mode : Bool) (icon : WhenFlag)
    (it : IconTheme) :
    iconTheme tty_available icon long_mode it =
      if icon = WhenFlag.never ∨ (icon = WhenFlag.auto ∧ tty_available = false)
          ∨ (icon = WhenFlag.long ∧ long_mode = false) then
        IconThemeRes.noIcon
      else match it with
        | IconTheme.fancy => IconThemeRes.fancy
        | IconTheme.unicode => IconThemeRes.unicode := by
  cases tty_available <;> cases long_mode <;> cases icon <;> cases it <;> rfl

/-- C7: per-root failure isolation of the fetch pass: the forest consists of
exactly the entries of the succeeding roots in input order (total-size pass
applied when enabled), the diagnostics are exactly those of the failing
roots in input order (one each), and a root succeeds precisely when it
contributes no diagnostic; in particular a failing root never aborts the
remaining roots (src/core.rs lines 84 to 115). -/
theorem fetch_failure_isolation (c : Core) (env : FsEnv)
    (paths : List String) :
    (Core.fetch c env paths).1 =
      (if c.flags.total_size then
          calcSizesList (paths.filterMap (rootOk env c.flags))
        else paths.filterMap (rootOk env c.flags)) ∧
    (Core.fetch c env paths).2 = paths.filterMap (rootDiag env c.flags) ∧
    ∀ p : String,
      (rootOk env c.flags p).isSome ↔ rootDiag env c.flags p = none := by
  refine ⟨by rw [fetch_eq], by rw [fetch_eq], fun p => ?_⟩
  unfold rootOk rootDiag
  cases fetchStep env c.flags (fetchDepth c.flags) p <;>
    simp [Except.toOption]

/-- A filesystem in which every path resolves to a childless entry except
p2, which does not exist. -/
def demoEnv : FsEnv where
  canonicalize := fun p =>
    if p = "p2" then Except.error "No such file or directory"
    else Except.ok ()
  from_path := fun p => Except.ok (Meta.mk p 0 0 false none)
  recurse_into := fun _ _ _ => Except.ok none

/-- The spec scenario for per-path failure isolation, evaluated concretely:
of three roots whose second does not exist, the forest keeps the first and
third entries in input order, exactly one diagnostic is emitted, and the
run does not abort. -/
theorem fetch_three_roots :
    Core.fetch (Core.new defaultFlags true true) demoEnv
        ["p1", "p2", "p3"] =
      ([Meta.mk "p1" 0 0 false none, Meta.mk "p3" 0 0 false none],
        ["cannot access p2: No such file or directory"]) := rfl

/-- Zero exit is exactly the empty diagnostic list. -/
theorem processExitCode_eq_zero (ds : List String) :
    processExitCode ds = 0 ↔ ds = [] := by
  unfold processExitCode
  cases ds with
  | nil => simp
  | cons a t => simp

/-- C3: a run that emitted at least one per-path diagnostic (a root that
failed resolution, metadata extraction, or recursion) terminates with a
non-zero exit status, and a run with no diagnostics exits with status zero;
the partial forest is rendered either way (see the fetch theorems).  The
exit logic itself lives in the binary entry point, which is not among the
given sources, and is modelled from the spec by processExitCode; the
diagnostics it inspects are those the embedded fetch pass emits. -/
theorem exitStatus_reflects_diagnostics (c : Core) (env : FsEnv)
    (paths : List String) :
    (processExitCode (Core.fetch c env paths).2 = 0 ↔
      ∀ p ∈ paths, rootDiag env c.flags p = none) ∧
    (processExitCode (Core.fetch c env paths).2 ≠ 0 ↔
      ∃ p ∈ paths, rootDiag env c.flags p ≠ none) := by
  have h2 : (Core.fetch c env paths).2 =
      paths.filterMap (rootDiag env c.flags) := by
    rw [fetch_eq]
  constructor
  · rw [h2, processExitCode_eq_zero, List.filterMap_eq_nil_iff]
  · rw [h2, Ne, processExitCode_eq_zero, List.filterMap_eq_nil_iff]
    push_neg
    rfl

/-- A successful from_matches run factors through fromMatchesCore with the
last value of each repeated option. -/
theorem fromMatches_ok_core {m : ArgMatches} {flags : Flags}
    (h : fromMatches m = Except.ok (some flags)) :
    ∃ a b c d e f,
      m.color_inputs.getLast? = some a ∧ m.icon_inputs.getLast? = some b ∧
      m.icon_theme_inputs.getLast? = some c ∧
      m.size_inputs.getLast? = some d ∧ m.date_inputs.getLast? = some e ∧
      m.dir_order_inputs.getLast? = some f ∧
      fromMatchesCore m a b c d e f = Except.ok (some flags) := by
  unfold fromMatches at h
  rcases hc : m.color_inputs.getLast? with _ | a <;> rw [hc] at h
  case none => simp at h
  rcases hi : m.icon_inputs.getLast? with _ | b <;> rw [hi] at h
  case none => simp at h
  rcases ht : m.icon_theme_inputs.getLast? with _ | c <;> rw [ht] at h
  case none => simp at h
  rcases hs : m.size_inputs.getLast? with _ | d <;> rw [hs] at h
  case none => simp at h
  rcases hd : m.date_inputs.getLast? with _ | e <;> rw [hd] at h
  case none => simp at h
  rcases hg : m.dir_order_inputs.getLast? with _ | f <;> rw [hg] at h
  case none => simp at h
  exact ⟨a, b, c, d, e, f, rfl, rfl, rfl, rfl, rfl, rfl, h⟩

/-- A successful buildFlags run records exactly the depth it was given. -/
theorem buildFlags_depth {m : ArgMatches}
    {a b c d e f : String} {disp : Display} {sb : SortFlag}
    {so : SortOrder} {lay : Layout} {rd : Nat} {flags : Flags}
    (h : buildFlags m a b c d e f disp sb so lay rd = some flags) :
    flags.recursion_depth = rd := by
  unfold buildFlags at h
  rcases h1 : SizeFlag.ofStr d with _ | sizeV <;> rw [h1] at h
  · exact absurd h (by simp [Option.bind])
  rcases h2 : m.blocks_inputs.mapM Block.ofStr with _ | blocksV <;>
    rw [h2] at h
  · exact absurd h (by simp [Option.bind])
  rcases h3 : classicPick m.classic DateFlag.date (DateFlag.ofStr e)
      with _ | dateV <;> rw [h3] at h
  · exact absurd h (by simp [Option.bind])
  rcases h4 : classicPick m.classic WhenFlag.never (WhenFlag.ofStr a)
      with _ | colorV <;> rw [h4] at h
  · exact absurd h (by simp [Option.bind])
  rcases h5 : classicPick m.classic WhenFlag.never (WhenFlag.ofStr b)
      with _ | iconV <;> rw [h5] at h
  · exact absurd h (by simp [Option.bind])
  rcases h6 : IconTheme.ofStr c with _ | iconThemeV <;> rw [h6] at h
  · exact absurd h (by simp [Option.bind])
  rcases h7 : classicPick m.classic DirOrderFlag.none (DirOrderFlag.ofStr f)
      with _ | dirOrderV <;> rw [h7] at h
  · exact absurd h (by simp [Option.bind])
  rw [← Option.some.inj h]

/-- When no depth argument was given, a successful fromMatchesCore run
records the unbounded depth usize::MAX. -/
theorem fromMatchesCore_depth_none {m : ArgMatches}
    {a b c d e f : String} {flags : Flags}
    (h : fromMatchesCore m a b c d e f = Except.ok (some flags))
    (hd : m.depth = none) :
    flags.recursion_depth = USIZE_MAX := by
  simp only [fromMatchesCore, hd] at h
  rw [Except.ok.injEq] at h
  exact buildFlags_depth h

/-- C6: the effective recursion depth used by the fetch pass is the
requested depth when the layout is tree-shaped or recursion was requested,
and exactly 1 otherwise; and a configuration built without a depth argument
carries the unbounded default usize::MAX as its requested depth
(src/core.rs lines 78 to 82 and src/flags.rs lines 69 to 94). -/
theorem effectiveDepth_policy (m : ArgMatches) (flags : Flags)
    (h : fromMatches m = Except.ok (some flags)) :
    fetchDepth flags =
      (if flags.layout.isTree || flags.recursive then flags.recursion_depth
        else 1) ∧
    (m.depth = none → flags.recursion_depth = USIZE_MAX) := by
  constructor
  · rcases hf : flags.layout with _ | l | l <;>
      simp [fetchDepth, Layout.isTree, hf]
  · intro hd
    obtain ⟨a, b, c, d, e, f, _, _, _, _, _, _, hcore⟩ := fromMatches_ok_core h
    exact fromMatchesCore_depth_none hcore hd

/-- Witness for C6 at the default invocation: no depth argument, grid
layout, no recursion; the effective depth is 1 and the recorded requested
depth is usize::MAX. -/
theorem effectiveDepth_policy_witness :
    fromMatches defaultMatches = Except.ok (some defaultFlags) ∧
    fetchDepth defaultFlags =
      (if defaultFlags.layout.isTree || defaultFlags.recursive then
        defaultFlags.recursion_depth else 1) ∧
    (defaultMatches.depth = none → defaultFlags.recursion_depth = USIZE_MAX)
    :=
  ⟨fromMatches_defaults,
    effectiveDepth_policy defaultMatches defaultFlags fromMatches_defaults⟩

/-- Matches in which every repeated option carries at least one value, as
clap guarantees through default values. -/
def WellFormedMatches (m : ArgMatches) : Prop :=
  m.color_inputs ≠ [] ∧ m.icon_inputs ≠ [] ∧ m.icon_theme_inputs ≠ [] ∧
    m.size_inputs ≠ [] ∧ m.date_inputs ≠ [] ∧ m.dir_order_inputs ≠ []

/-- The invocation of the source unit test test_useless_depth: a depth
without tree and without recursive. -/
def uselessDepthMatches : ArgMatches :=
  { defaultMatches with depth := some "10" }

/-- The invocation of the source unit test test_validate_depth_value: a
non-numeric depth under the tree layout. -/
def invalidDepthMatches : ArgMatches :=
  { defaultMatches with tree := true, depth := some "xx" }

/-- Mirror of the source unit test test_useless_depth. -/
theorem fromMatches_uselessDepth : fromMatches uselessDepthMatches =
    Except.error
      (ClapError.mk ErrKind.missingRequiredArgument depthRequiresMsg) := rfl

/-- Mirror of the source unit test test_validate_depth_value. -/
theorem fromMatches_invalidDepth : fromMatches invalidDepthMatches =
    Except.error (ClapError.mk ErrKind.valueValidation depthInvalidMsg) := rfl

/-- C8: a depth argument supplied without recursive and without tree is
rejected by Flags::from_matches with a missing-required-argument
configuration error, and with recursive or tree a depth value that does not
parse as a non-negative integer is rejected with a value-validation
configuration error; either error is produced by the pure flag conversion,
before the Core is built and before any filesystem access
(src/flags.rs lines 69 to 94). -/
theorem depth_flag_config_errors (m : ArgMatches) (s : String)
    (hw : WellFormedMatches m) (hd : m.depth = some s) :
    (m.recursive = false → m.tree = false →
      fromMatches m = Except.error
        (ClapError.mk ErrKind.missingRequiredArgument depthRequiresMsg)) ∧
    ((m.recursive = true ∨ m.tree = true) → parseUsize s = none →
      fromMatches m = Except.error
        (ClapError.mk ErrKind.valueValidation depthInvalidMsg)) := by
  obtain ⟨h1, h2, h3, h4, h5, h6⟩ := hw
  obtain ⟨a, ha⟩ := Option.isSome_iff_exists.mp (List.getLast?_isSome.mpr h1)
  obtain ⟨b, hb⟩ := Option.isSome_iff_exists.mp (List.getLast?_isSome.mpr h2)
  obtain ⟨c, hc⟩ := Option.isSome_iff_exists.mp (List.getLast?_isSome.mpr h3)
  obtain ⟨d, hd4⟩ := Option.isSome_iff_exists.mp (List.getLast?_isSome.mpr h4)
  obtain ⟨e, he⟩ := Option.isSome_iff_exists.mp (List.getLast?_isSome.mpr h5)
  obtain ⟨f, hf⟩ := Option.isSome_iff_exists.mp (List.getLast?_isSome.mpr h6)
  have hfm : fromMatches m = fromMatchesCore m a b c d e f := by
    unfold fromMatches
    rw [ha, hb, hc, hd4, he, hf]
  rw [hfm]
  simp only [fromMatchesCore, hd]
  constructor
  · intro hr ht
    cases hl : m.long <;> cases ho : m.oneline <;>
      simp [hr, ht, hl, ho]
  · rintro (hr | ht) hp
    · simp [hr, hp]
    · simp [ht, hp]

/-- Witness for C8: the useless-depth invocation is well formed, carries
depth 10, and is rejected with the missing-required-argument error. -/
theorem depth_flag_config_errors_witness :
    WellFormedMatches uselessDepthMatches ∧
    uselessDepthMatches.depth = some "10" ∧
    fromMatches uselessDepthMatches = Except.error
      (ClapError.mk ErrKind.missingRequiredArgument depthRequiresMsg) :=
  ⟨⟨by decide, by decide, by decide, by decide, by decide, by decide⟩, rfl,
    (depth_flag_config_errors uselessDepthMatches "10"
      ⟨by decide, by decide, by decide, by decide, by decide, by decide⟩
      rfl).1 rfl rfl⟩

/-- Pairwise on a two-element list from the single comparison. -/
theorem pairwise_pair {R : Meta → Meta → Prop} {x y : Meta} (hxy : R x y) :
    List.Pairwise R [x, y] := by
  refine List.pairwise_cons.mpr
    ⟨?_, List.pairwise_cons.mpr ⟨?_, List.Pairwise.nil⟩⟩
  · intro z hz
    rcases List.mem_cons.mp hz with hzz | hzz
    · exact hzz ▸ hxy
    · exact absurd hzz (List.not_mem_nil z)
  · intro z hz
    exact absurd hz (List.not_mem_nil z)

/-- A two-entry level of equal-comparing entries also admits the unswapped
output. -/
theorem sortKeepPair (flags : Flags) (x y : Meta)
    (hx : x.content = none) (hy : y.content = none)
    (hxy : byMeta flags x y ≠ Ordering.gt) :
    CoreSortForest (byMeta flags) [x, y] [x, y] := by
  have hx' : x = Meta.mk x.name x.date x.size x.isDirectory none := by
    cases x with
    | mk n d s b c => cases hx; rfl
  have hy' : y = Meta.mk y.name y.date y.size y.isDirectory none := by
    cases y with
    | mk n d s b c => cases hy; rfl
  refine .step _ [x, y] _ (List.Perm.refl _) (pairwise_pair hxy) ?_
  rw [hx', hy']
  exact .cons _ _ _ _ (.noContent _ _ _ _)
    (.cons _ _ _ _ (.noContent _ _ _ _) .nil)

/-- Stability of one sorted level, as the claim asserts it: for every entry
a, the subsequence of entries comparing equal to a is the same before and
after the sort, i.e. equal-comparing entries retain their relative order. -/
def StableLevel (cmp : Meta → Meta → Ordering) (l out : List Meta) : Prop :=
  ∀ a : Meta,
    out.filter (fun x => cmp x a == Ordering.eq)
      = l.filter (fun x => cmp x a == Ordering.eq)

/-- C2 counterexample: the claim says every run of Core::sort is stable.
It is refuted at the two-root forest of the distinct entries a and b of
equal size under the size comparator: the contract of the unstable sort
admits the swapped output, in which the two equal-comparing entries have
exchanged their relative order. -/
theorem sort_stability_counterexample :
    ¬ (∀ (flags : Flags) (l out : List Meta),
        CoreSortForest (byMeta flags) l out →
        StableLevel (byMeta flags) l out) := by
  intro h
  have hsort : CoreSortForest (byMeta sizeFlags) [mA, mB] [mB, mA] :=
    sortSwapPair sizeFlags mA mB rfl rfl (by decide)
  have hst := h sizeFlags [mA, mB] [mB, mA] hsort mA
  revert hst
  decide

/-- C2 (amended): the per-level sort of Core::sort is not guaranteed stable
(it is slice::sort_unstable_by); what every admitted run guarantees instead
is that the output forest is sorted at every level under the configured
comparator and that its top level carries exactly the entries of the input
level (equal scalar multisets, as a permutation of scalar records), with
equal-comparing entries in unspecified relative order
(src/core.rs lines 125 to 133). -/
theorem sort_sorted_permutation (flags : Flags) (l out : List Meta)
    (h : CoreSortForest (byMeta flags) l out) :
    ForestSorted (byMeta flags) out ∧
      (out.map Meta.scalar).Perm (l.map Meta.scalar) :=
  ⟨coreSortForest_sorted (byMeta_scalarOnly flags) h,
    coreSortForest_scalars_perm h⟩

/-- Witness for the amended C2 at a one-entry forest. -/
theorem sort_sorted_permutation_witness :
    CoreSortForest (byMeta defaultFlags) [mE] [mE] ∧
      (ForestSorted (byMeta defaultFlags) [mE] ∧
        (([mE] : List Meta).map Meta.scalar).Perm
          (([mE] : List Meta).map Meta.scalar)) :=
  ⟨sortSingleton (byMeta defaultFlags) "e" 1 2 false,
    sort_sorted_permutation defaultFlags [mE] [mE]
      (sortSingleton (byMeta defaultFlags) "e" 1 2 false)⟩

/-- C9 counterexample: the claim says sorting twice always yields exactly
the order of sorting once.  Refuted at the forest of the two distinct
entries c and d of equal size under the size comparator: the first run may
keep the input order and the second run may swap the two equal-comparing
entries, so the orders differ. -/
theorem sort_idempotence_counterexample :
    ¬ (∀ (flags : Flags) (l o1 o2 : List Meta),
        CoreSortForest (byMeta flags) l o1 →
        CoreSortForest (byMeta flags) o1 o2 → o2 = o1) := by
  intro h
  have hkeep : CoreSortForest (byMeta sizeFlags) [mC, mD] [mC, mD] :=
    sortKeepPair sizeFlags mC mD rfl rfl (by decide)
  have hswap : CoreSortForest (byMeta sizeFlags) [mC, mD] [mD, mC] :=
    sortSwapPair sizeFlags mC mD rfl rfl (by decide)
  have := h sizeFlags [mC, mD] [mC, mD] [mD, mC] hkeep hswap
  exact absurd this (by decide)

/-- C9 (amended): a second run of Core::sort need not reproduce the first
run order exactly, because the unstable sort may reorder equal-comparing
entries; what holds is that the second output is, level by level, a
permutation of the first output carrying the same entries in the same
levels, both outputs are sorted at every level under the configured
comparator, and on a tie-free input forest (no two distinct entries of any
level compare equal) the second run reproduces the first exactly, i.e. the
sort is idempotent precisely up to ties (src/core.rs lines 125 to 133). -/
theorem sort_twice_levelwise (flags : Flags) (l o1 o2 : List Meta)
    (h1 : CoreSortForest (byMeta flags) l o1)
    (h2 : CoreSortForest (byMeta flags) o1 o2) :
    ForestEquiv o1 o2 ∧ ForestSorted (byMeta flags) o1 ∧
      ForestSorted (byMeta flags) o2 ∧
      (ForestTieFree (byMeta flags) l → o2 = o1) := by
  refine ⟨coreSortForest_equiv h2,
    coreSortForest_sorted (byMeta_scalarOnly flags) h1,
    coreSortForest_sorted (byMeta_scalarOnly flags) h2, fun htf => ?_⟩
  have htf1 : ForestTieFree (byMeta flags) o1 :=
    coreSortForest_tieFree (byMeta_scalarOnly flags) (byMeta_antisym flags)
      htf h1
  have hrefl : CoreSortForest (byMeta flags) o1 o1 :=
    forestSorted_selfSort
      (coreSortForest_sorted (byMeta_scalarOnly flags) h1)
  exact coreSortForest_unique (byMeta_scalarOnly flags)
    (byMeta_antisym flags) htf1 h2 hrefl

/-- Witness for the amended C9 at a one-entry forest sorted twice. -/
theorem sort_twice_levelwise_witness :
    CoreSortForest (byMeta defaultFlags) [mC] [mC] ∧
      CoreSortForest (byMeta defaultFlags) [mC] [mC] ∧
      (ForestEquiv [mC] [mC] ∧ ForestSorted (byMeta defaultFlags) [mC] ∧
        ForestSorted (byMeta defaultFlags) [mC] ∧
        (ForestTieFree (byMeta defaultFlags) [mC] →
          [mC] = ([mC] : List Meta))) :=
  ⟨sortSingleton (byMeta defaultFlags) "c" 0 7 false,
    sortSingleton (byMeta defaultFlags) "c" 0 7 false,
    sort_twice_levelwise defaultFlags [mC] [mC] [mC]
      (sortSingleton (byMeta defaultFlags) "c" 0 7 false)
      (sortSingleton (byMeta defaultFlags) "c" 0 7 false)⟩

/-- An entry with a one-entry content forest, for the C10 witness. -/
def mNest : Meta :=
  Meta.mk "g" 0 1 true (some [Meta.mk "h" 0 2 false none])

/-- C10: the sort pass only permutes entries within their own level: every
admitted run of Core::sort relates the input forest to the output forest by
per-level permutation (ForestEquiv: recursively, each level of the output
is a permutation of the corresponding input level, entries keep their
scalar fields, no entry moves between levels, and an absent content stays
absent), and in particular the top level of the output carries exactly the
scalar records of the top level of the input as a multiset
(src/core.rs lines 125 to 133). -/
theorem sort_permutes_within_levels (cmp : Meta → Meta → Ordering)
    (l out : List Meta) (h : CoreSortForest cmp l out) :
    ForestEquiv l out ∧ (out.map Meta.scalar).Perm (l.map Meta.scalar) :=
  ⟨coreSortForest_equiv h, coreSortForest_scalars_perm h⟩

/-- Witness for C10 at a nested two-level forest. -/
theorem sort_permutes_within_levels_witness :
    CoreSortForest (byMeta defaultFlags) [mNest] [mNest] ∧
      (ForestEquiv [mNest] [mNest] ∧
        (([mNest] : List Meta).map Meta.scalar).Perm
          (([mNest] : List Meta).map Meta.scalar)) := by
  have hin : CoreSortForest (byMeta defaultFlags)
      [Meta.mk "h" 0 2 false none] [Meta.mk "h" 0 2 false none] :=
    sortSingleton (byMeta defaultFlags) "h" 0 2 false
  have hd : CoreSortForest (byMeta defaultFlags) [mNest] [mNest] :=
    .step _ [mNest] _ (List.Perm.refl _)
      (List.pairwise_cons.mpr
        ⟨fun x hx => absurd hx (List.not_mem_nil x), List.Pairwise.nil⟩)
      (.cons _ _ _ _ (.withContent "g" 0 1 true _ _ hin) .nil)
  exact ⟨hd, sort_permutes_within_levels (byMeta defaultFlags) [mNest]
    [mNest] hd⟩
